import Mathlib

/-!
# pg2xlsx: classification of PostgreSQL values into spreadsheet cells

A shallow embedding of `main.go`: the value classifier `CellFromPostgres`, the
sheet-building part of `main` and the record search of `passwordFromPgpass`,
together with models of the Go library calls they make (`strconv.ParseFloat`,
`strings.Contains`, `fmt.Sprintf`, the `xlsx` sheet interface).

Conventions.
* A Go `string` is a sequence of bytes, `List UInt8`; it need not be UTF-8.
* A Go run-time panic (index out of range) is the result `none`.
-/

set_option autoImplicit false
set_option exponentiation.threshold 2048

namespace Pg2xlsx

/-! ## Go strings -/

/-- Go `string`: an immutable sequence of bytes. -/
abbrev GoString := List UInt8

/-- The byte of an ASCII character literal such as `'0'`. -/
def ch (c : Char) : UInt8 := UInt8.ofNat c.toNat

/-- The bytes of an ASCII string literal. -/
def ascii (s : String) : GoString := s.toList.map ch

/-- Go index expression `s[i]`: panics (here `none`) when `i` is out of range. -/
def index {α : Type} (s : List α) (i : Nat) : Option α := s.get? i

/-- Whether `s` begins with the bytes `p` (Go `strings.HasPrefix`). -/
def startsWith : GoString → GoString → Bool
  | _, [] => true
  | [], _ :: _ => false
  | c :: s, p :: ps => c == p && startsWith s ps

/-- Go `strings.Contains(s, substr)`: `substr` occurs somewhere within `s`. -/
def Contains : GoString → GoString → Bool
  | [], substr => substr.isEmpty
  | c :: s, substr => startsWith (c :: s) substr || Contains s substr

/-! ## strconv.ParseFloat

Only the error result is modelled: `CellFromPostgres` discards the number
(`_, err := strconv.ParseFloat(s, 10)`). The model follows the Go standard
library (`strconv/atof.go`, `strconv/decimal.go`): `special`, `readFloat`,
`underscoreOK`, `atofHex`, `decimal.set` and the overflow test of
`decimal.floatBits`. -/

/-- The two errors of `strconv`: `ErrSyntax` and `ErrRange`. -/
inductive NumError
  | ErrSyntax
  | ErrRange
  deriving DecidableEq, Repr

/-- Go `floatInfo`. -/
structure FloatInfo where
  mantbits : Nat
  expbits : Nat
  bias : Int

def float32info : FloatInfo := ⟨23, 8, -127⟩

def float64info : FloatInfo := ⟨52, 11, -1023⟩

/-- Go `lower(c)`, that is `c | ('x' - 'X')`. -/
def lower (c : UInt8) : UInt8 := c ||| 0x20

def isDigit (c : UInt8) : Bool := decide (ch '0' ≤ c) && decide (c ≤ ch '9')

def isHexLetter (c : UInt8) : Bool := decide (ch 'a' ≤ lower c) && decide (lower c ≤ ch 'f')

/-- Go `commonPrefixLenIgnoreCase(s, prefix)`; `prefix` is lower case. -/
def commonPrefixLenIgnoreCase : GoString → GoString → Nat
  | c :: s, p :: ps =>
    let c1 := if decide (ch 'A' ≤ c) && decide (c ≤ ch 'Z') then c + (ch 'a' - ch 'A') else c
    if c1 != p then 0 else 1 + commonPrefixLenIgnoreCase s ps
  | _, _ => 0

/-- The `case 'i', 'I'` arm of `special`, reached with `nsign` sign bytes removed. -/
def specialInf (nsign : Nat) (s : GoString) : Option Nat :=
  let n := commonPrefixLenIgnoreCase s (ascii "infinity")
  let n := if 3 < n && n < 8 then 3 else n
  if n == 3 || n == 8 then some (nsign + n) else none

/-- Go `special(s)`: recognises `inf`, `infinity`, `nan` (any case, the first two
optionally signed) at the start of `s`; returns the number of bytes consumed. -/
def special : GoString → Option Nat
  | [] => none
  | c :: s =>
    if c == ch '+' || c == ch '-' then specialInf 1 s
    else if c == ch 'i' || c == ch 'I' then specialInf 0 (c :: s)
    else if c == ch 'n' || c == ch 'N' then
      if commonPrefixLenIgnoreCase (c :: s) (ascii "nan") == 3 then some 3 else none
    else none

/-- Local variables of the digit loop of `readFloat`. -/
structure ReadState where
  mantissa : Nat := 0
  nd : Nat := 0
  ndMant : Nat := 0
  dp : Int := 0
  sawdot : Bool := false
  sawdigits : Bool := false
  trunc : Bool := false
  underscores : Bool := false

/-- The `loop:` of `readFloat`; returns the state and the unread rest of the string. -/
def readLoop (base maxMantDigits : Nat) : GoString → ReadState → ReadState × GoString
  | [], st => (st, [])
  | c :: s, st =>
    if c == ch '_' then readLoop base maxMantDigits s { st with underscores := true }
    else if c == ch '.' then
      if st.sawdot then (st, c :: s)
      else readLoop base maxMantDigits s { st with sawdot := true, dp := st.nd }
    else if isDigit c then
      if c == ch '0' && st.nd == 0 then
        readLoop base maxMantDigits s { st with sawdigits := true, dp := st.dp - 1 }
      else if st.ndMant < maxMantDigits then
        readLoop base maxMantDigits s
          { st with sawdigits := true, nd := st.nd + 1,
                    mantissa := st.mantissa * base + (c - ch '0').toNat,
                    ndMant := st.ndMant + 1 }
      else if c != ch '0' then
        readLoop base maxMantDigits s { st with sawdigits := true, nd := st.nd + 1, trunc := true }
      else
        readLoop base maxMantDigits s { st with sawdigits := true, nd := st.nd + 1 }
    else if base == 16 && isHexLetter c then
      if st.ndMant < maxMantDigits then
        readLoop base maxMantDigits s
          { st with sawdigits := true, nd := st.nd + 1,
                    mantissa := st.mantissa * 16 + (lower c - ch 'a' + 10).toNat,
                    ndMant := st.ndMant + 1 }
      else
        readLoop base maxMantDigits s { st with sawdigits := true, nd := st.nd + 1, trunc := true }
    else (st, c :: s)

/-- The exponent digit loop shared by `readFloat` and `decimal.set`:
`if e < 10000 { e = e*10 + int(s[i]) - '0' }`, underscores skipped.
Returns `e`, whether an underscore was seen, and the unread rest. -/
def readExpDigits : GoString → Nat → Bool → Nat × Bool × GoString
  | [], e, us => (e, us, [])
  | c :: s, e, us =>
    if c == ch '_' then readExpDigits s e true
    else if isDigit c then
      readExpDigits s (if e < 10000 then e * 10 + (c - ch '0').toNat else e) us
    else (e, us, c :: s)

/-- The optional exponent of `readFloat` and `decimal.set`, entered after the
exponent character: sign, then at least one digit. `none` is the early
`return` (syntax error). -/
def readExp : GoString → Option (Int × Bool × GoString)
  | [] => none
  | c :: s =>
    let esign : Int := if c == ch '-' then -1 else 1
    let s1 := if c == ch '+' || c == ch '-' then s else c :: s
    match s1 with
    | [] => none
    | d :: s2 =>
      if decide (d < ch '0') || decide (d > ch '9') then none
      else
        let (e, us, rest) := readExpDigits (d :: s2) 0 false
        some ((e : Int) * esign, us, rest)

/-- The classification of the last byte seen in `underscoreOK`. -/
inductive Saw
  | start
  | digit
  | underscore
  | other
  deriving DecidableEq

/-- The `for` loop of `underscoreOK`. -/
def underscoreLoop (hex : Bool) : GoString → Saw → Bool
  | [], saw => saw != Saw.underscore
  | c :: s, saw =>
    if isDigit c || (hex && isHexLetter c) then underscoreLoop hex s Saw.digit
    else if c == ch '_' then
      if saw != Saw.digit then false else underscoreLoop hex s Saw.underscore
    else if saw == Saw.underscore then false
    else underscoreLoop hex s Saw.other

/-- Go `underscoreOK(s)`: underscores only between digits or between a base
prefix and a digit. -/
def underscoreOK (s : GoString) : Bool :=
  let s := match s with
    | c :: t => if c == ch '-' || c == ch '+' then t else c :: t
    | [] => []
  match s with
  | c0 :: c1 :: t =>
    if c0 == ch '0' && (lower c1 == ch 'b' || lower c1 == ch 'o' || lower c1 == ch 'x') then
      underscoreLoop (lower c1 == ch 'x') t Saw.digit
    else underscoreLoop false s Saw.start
  | _ => underscoreLoop false s Saw.start

/-- Results of `readFloat` (the sign is not needed for the error result). -/
structure ReadFloat where
  mantissa : Nat
  exp : Int
  trunc : Bool
  hex : Bool
  i : Nat
  ok : Bool
  deriving DecidableEq, Repr

/-- Go `readFloat(s)`. -/
def readFloat (s : GoString) : ReadFloat :=
  let fail (i : Nat) : ReadFloat := ⟨0, 0, false, false, i, false⟩
  match s with
  | [] => fail 0
  | c :: t =>
    let s1 := if c == ch '+' || c == ch '-' then t else s
    let hex : Bool := match s1 with
      | c0 :: c1 :: _ :: _ => c0 == ch '0' && lower c1 == ch 'x'
      | _ => false
    let base := if hex then 16 else 10
    let maxMantDigits := if hex then 16 else 19
    let expChar := if hex then ch 'p' else ch 'e'
    let s2 := if hex then s1.drop 2 else s1
    let (st, rest) := readLoop base maxMantDigits s2 {}
    if !st.sawdigits then fail (s.length - rest.length)
    else
      let dp : Int := if !st.sawdot then st.nd else st.dp
      let dp := if hex then dp * 4 else dp
      let ndMant := if hex then st.ndMant * 4 else st.ndMant
      let finish (dp : Int) (us : Bool) (rest : GoString) : ReadFloat :=
        let i := s.length - rest.length
        let exp : Int := if st.mantissa != 0 then dp - ndMant else 0
        if us && !underscoreOK (s.take i) then ⟨st.mantissa, exp, st.trunc, hex, i, false⟩
        else ⟨st.mantissa, exp, st.trunc, hex, i, true⟩
      match rest with
      | e :: rest1 =>
        if lower e == expChar then
          match readExp rest1 with
          | none => fail (s.length - rest1.length)
          | some (e10, us, rest2) => finish (dp + e10) (st.underscores || us) rest2
        else if hex then fail (s.length - rest.length)
        else finish dp st.underscores rest
      | [] =>
        if hex then fail s.length
        else finish dp st.underscores rest

/-- First loop of `atofHex`: shift left until the mantissa has `mantbits + 3` bits. -/
def hexShiftUp (mantbits : Nat) : Nat → Nat → Int → Nat × Int
  | 0, m, e => (m, e)
  | fuel + 1, m, e =>
    if m != 0 && m >>> (mantbits + 2) == 0 then hexShiftUp mantbits fuel (m <<< 1) (e - 1)
    else (m, e)

/-- Second loop of `atofHex`: shift right (keeping a sticky bit) while too wide. -/
def hexShiftDown (mantbits : Nat) : Nat → Nat → Int → Nat × Int
  | 0, m, e => (m, e)
  | fuel + 1, m, e =>
    if m >>> (1 + mantbits + 2) != 0 then hexShiftDown mantbits fuel (m >>> 1 ||| m &&& 1) (e + 1)
    else (m, e)

/-- Third loop of `atofHex`: denormalise while the exponent is too negative. -/
def hexDenorm (minExp : Int) : Nat → Nat → Int → Nat × Int
  | 0, m, e => (m, e)
  | fuel + 1, m, e =>
    if decide (m > 1) && decide (e < minExp - 2) then hexDenorm minExp fuel (m >>> 1 ||| m &&& 1) (e + 1)
    else (m, e)

/-- Go `atofHex`, error result only: `ErrRange` when the rounded value overflows.
The mantissa is a `uint64`, so 64 iterations bound the first two loops; the
third halves a mantissa below `2^(mantbits+3)` and ends within 64 as well. -/
def atofHex (flt : FloatInfo) (mantissa : Nat) (exp : Int) (trunc : Bool) : Option NumError :=
  let maxExp : Int := (1 <<< flt.expbits : Nat) + flt.bias - 2
  let minExp : Int := flt.bias + 1
  let exp := exp + flt.mantbits
  let (mantissa, exp) := hexShiftUp flt.mantbits 64 mantissa exp
  let mantissa := if trunc then mantissa ||| 1 else mantissa
  let (mantissa, exp) := hexShiftDown flt.mantbits 64 mantissa exp
  let (mantissa, exp) := hexDenorm minExp 64 mantissa exp
  let round := mantissa &&& 3
  let mantissa := mantissa >>> 2
  let round := round ||| (mantissa &&& 1)
  let exp := exp + 2
  let (mantissa, exp) :=
    if round == 3 then
      if mantissa + 1 == 1 <<< (1 + flt.mantbits) then ((mantissa + 1) >>> 1, exp + 1)
      else (mantissa + 1, exp)
    else (mantissa, exp)
  let exp := if mantissa >>> flt.mantbits == 0 then flt.bias else exp
  if exp > maxExp then some NumError.ErrRange else none

/-- Go `decimal` after `set`: the digits kept (as a number), their count `nd`,
the decimal point `dp` and the truncation flag; the value is
`0.d₁d₂… × 10^dp = digits × 10^(dp - nd)`. -/
structure Decimal where
  digits : Nat := 0
  nd : Nat := 0
  dp : Int := 0
  trunc : Bool := false
  sawdot : Bool := false
  sawdigits : Bool := false

/-- The digit loop of `decimal.set`; the buffer `d.d` holds 800 digits. -/
def decimalLoop : GoString → Decimal → Decimal × GoString
  | [], b => (b, [])
  | c :: s, b =>
    if c == ch '_' then decimalLoop s b
    else if c == ch '.' then
      if b.sawdot then (b, c :: s)
      else decimalLoop s { b with sawdot := true, dp := b.nd }
    else if isDigit c then
      if c == ch '0' && b.nd == 0 then decimalLoop s { b with sawdigits := true, dp := b.dp - 1 }
      else if b.nd < 800 then
        decimalLoop s { b with sawdigits := true, digits := b.digits * 10 + (c - ch '0').toNat,
                               nd := b.nd + 1 }
      else if c != ch '0' then decimalLoop s { b with sawdigits := true, trunc := true }
      else decimalLoop s { b with sawdigits := true }
    else (b, c :: s)

/-- Go `(*decimal).set(s)`: `none` when it reports `ok = false`. -/
def decimalSet (s : GoString) : Option Decimal :=
  match s with
  | [] => none
  | c :: t =>
    let s1 := if c == ch '+' || c == ch '-' then t else s
    let (b, rest) := decimalLoop s1 {}
    if !b.sawdigits then none
    else
      let b := if !b.sawdot then { b with dp := b.nd } else b
      match rest with
      | [] => some b
      | e :: rest1 =>
        if lower e == ch 'e' then
          match readExp rest1 with
          | none => none
          | some (e10, _, rest2) => if rest2.isEmpty then some { b with dp := b.dp + e10 } else none
        else none

/-- The overflow result of Go `(*decimal).floatBits(flt)`. After the two
shortcuts of the source (`d.nd == 0`, `d.dp > 310`, `d.dp < -330`) the decimal is
rounded to the nearest float, ties to even; that overflows exactly when the
value is at least `2^(emax+1) - 2^(emax-mantbits-1)`, half an ulp above the
largest finite float. -/
def floatBitsOverflow (flt : FloatInfo) (d : Decimal) : Bool :=
  if d.nd == 0 then false
  else if d.dp > 310 then true
  else if d.dp < -330 then false
  else
    let top : Nat := ((1 <<< flt.expbits : Nat) - 1 + flt.bias).toNat
    let limit : Nat := (1 <<< top) - (1 <<< (top - flt.mantbits - 2))
    let e10 : Int := d.dp - d.nd
    if e10 ≥ 0 then decide (d.digits * 10 ^ e10.toNat ≥ limit)
    else decide (d.digits ≥ limit * 10 ^ (-e10).toNat)

/-- Go `atof64` / `atof32`, reduced to the number of bytes consumed and the error. -/
def atof (flt : FloatInfo) (s : GoString) : Nat × Option NumError :=
  match special s with
  | some n => (n, none)
  | none =>
    let r := readFloat s
    if !r.ok then (r.i, some NumError.ErrSyntax)
    else if r.hex then (r.i, atofHex flt r.mantissa r.exp r.trunc)
    else
      match decimalSet (s.take r.i) with
      | none => (r.i, some NumError.ErrSyntax)
      | some d => (r.i, if floatBitsOverflow flt d then some NumError.ErrRange else none)

/-- Go `parseFloatPrefix(s, bitSize)`. -/
def parseFloatPrefix (s : GoString) (bitSize : Nat) : Nat × Option NumError :=
  if bitSize == 32 then atof float32info s else atof float64info s

/-- Go `strconv.ParseFloat(s, bitSize)`, error result: `none` is `err == nil`. -/
def ParseFloat (s : GoString) (bitSize : Nat) : Option NumError :=
  let (n, err) := parseFloatPrefix s bitSize
  if n != s.length && (err == none || err != some NumError.ErrSyntax) then some NumError.ErrSyntax
  else err

/-! ## fmt.Sprintf -/

/-- A Go `int64`. -/
structure Int64 where
  val : Int
  lo : -9223372036854775808 ≤ val
  hi : val ≤ 9223372036854775807

/-- Go `byte('0' + d)`. -/
def digitByte (d : Nat) : UInt8 := ch '0' + UInt8.ofNat d

/-- The base-10 loop of `fmt.(*fmt).fmtInteger`, writing the buffer from the right:
`for u >= 10 { i--; next := u / 10; buf[i] = byte('0' + u - next*10); u = next }`
followed by `buf[i] = digits[u]`. The first argument bounds the iterations: a
number below `10^(fuel+1)` needs at most `fuel`. -/
def fmtDigits : Nat → Nat → GoString → GoString
  | 0, u, buf => digitByte u :: buf
  | fuel + 1, u, buf =>
    if u ≥ 10 then fmtDigits fuel (u / 10) (digitByte (u - u / 10 * 10) :: buf)
    else digitByte u :: buf

/-- Go `fmt.Sprintf("%d", v)` for an `int64`: `fmtInteger(uint64(v), 10, signed, …)`.
`negative := int64(u) < 0; if negative { u = -u }` leaves the magnitude of `v`
in `u` (`2^63` for the least `int64`), which has at most 19 digits. -/
def fmtInteger (v : Int64) : GoString :=
  let negative := decide (v.val < 0)
  let u := v.val.natAbs
  let buf := fmtDigits 20 u []
  if negative then ch '-' :: buf else buf

/-- A Go `float64` by its IEEE 754 fields: sign bit, biased exponent, fraction. -/
structure Float64 where
  sign : Bool
  expo : Fin 2048
  frac : Fin 4503599627370496

/-- Quotient `num / den` rounded to the nearest integer, ties to even. -/
def roundHalfEven (num den : Nat) : Nat :=
  let q := num / den
  let r := num % den
  if decide (2 * r > den) || (2 * r == den && q % 2 == 1) then q + 1 else q

/-- The digits of `n`, padded on the left with `'0'` to at least `width` digits. -/
def padDigits (width : Nat) (digits : GoString) : GoString :=
  List.replicate (width - digits.length) (ch '0') ++ digits

/-- Go `fmt.Sprintf("%f", v)` for a `float64`: `strconv.AppendFloat(…, 'f', 6, 64)`
with the sign handling of `fmt.(*fmt).fmtFloat`. Not-a-number and the
infinities print as `NaN`, `+Inf`, `-Inf`; a finite value `m × 2^e` prints
as its exact decimal expansion rounded to six fraction digits, ties to even
(`bigFtoa` with `d.Round(d.dp + 6)`, laid out by `fmtF`). -/
def fmtFloat (f : Float64) : GoString :=
  if f.expo.val == 2047 then
    if f.frac.val != 0 then ascii "NaN"
    else if f.sign then ascii "-Inf" else ascii "+Inf"
  else
    let mant : Nat := if f.expo.val == 0 then f.frac.val else 4503599627370496 + f.frac.val
    let exp : Nat := if f.expo.val == 0 then 1 else f.expo.val
    -- the value is mant × 2^(exp - 1075)
    let scaled : Nat :=
      if exp ≥ 1075 then (mant <<< (exp - 1075)) * 1000000
      else roundHalfEven (mant * 1000000) (1 <<< (1075 - exp))
    let text := fmtDigits 320 (scaled / 1000000) [] ++ ch '.' :: padDigits 6 (fmtDigits 6 (scaled % 1000000) [])
    if f.sign then ch '-' :: text else text

/-- A Go `time.Time` by what `Format` reads of it: the civil date and clock in
the time's location and the zone offset in seconds east of UTC. -/
structure Time where
  year : Int
  month : Nat
  day : Nat
  hour : Nat
  minute : Nat
  second : Nat
  offset : Int

/-- Go `time.appendInt(b, x, width)`: sign, zero padding to `width`, digits. -/
def appendInt (x : Int) (width : Nat) : GoString :=
  let digits := padDigits width (fmtDigits 20 x.natAbs [])
  if x < 0 then ch '-' :: digits else digits

/-- Go `t.Format(time.RFC3339)`, layout `2006-01-02T15:04:05Z07:00`. -/
def formatRFC3339 (t : Time) : GoString :=
  let zone : Int := Int.tdiv t.offset 60
  let zoneText : GoString :=
    if t.offset == 0 then ascii "Z"
    else
      (if zone < 0 then ch '-' else ch '+') ::
        (appendInt (zone.natAbs / 60 : Nat) 2 ++ ch ':' :: appendInt (zone.natAbs % 60 : Nat) 2)
  appendInt t.year 4 ++ ch '-' :: appendInt t.month 2 ++ ch '-' :: appendInt t.day 2 ++
    ch 'T' :: appendInt t.hour 2 ++ ch ':' :: appendInt t.minute 2 ++ ch ':' ::
    appendInt t.second 2 ++ zoneText

/-! ## Cells and the value classifier -/

/-- The cell kinds of the `xlsx` package used by `main.go`. -/
inductive CellType
  | CellTypeString
  | CellTypeNumber
  | CellTypeDatetime
  deriving DecidableEq, Repr

/-- Go `xlsx.Cell{kind, text}`. -/
structure Cell where
  kind : CellType
  text : GoString
  deriving DecidableEq, Repr

/-- The dynamic value `v interface{}` handed to `CellFromPostgres`, by dynamic
type. `other` stands for a value of any type without a `case` of its own (a Go
`string`, for instance) and carries what `fmt.Sprintf("%s", v)` prints for it. -/
inductive RawValue
  | nil
  | bytes (b : List UInt8)
  | bool (b : Bool)
  | int64 (n : Int64)
  | float64 (f : Float64)
  | time (t : Time)
  | other (rendering : GoString)

/-- The guard `len(s) > 0 && (strings.Contains(s, ".") || s[0] != '0')` with
Go's short-circuit evaluation; `none` if `s[0]` were evaluated out of range. -/
def numericGuard (s : GoString) : Option Bool :=
  if s.length > 0 then
    if Contains s (ascii ".") then some true
    else (index s 0).bind fun c => some (c != ch '0')
  else some false

/-- Go `CellFromPostgres(v)`; `none` would be a run-time panic. -/
def CellFromPostgres : RawValue → Option Cell
  | RawValue.nil => some ⟨CellType.CellTypeString, []⟩
  | RawValue.bytes v =>
    let s : GoString := v
    (numericGuard s).bind fun g =>
      if g && ParseFloat s 10 == none then some ⟨CellType.CellTypeNumber, s⟩
      else some ⟨CellType.CellTypeString, s⟩
  | RawValue.bool b =>
    if b then some ⟨CellType.CellTypeString, ascii "Y"⟩
    else some ⟨CellType.CellTypeString, ascii "N"⟩
  | RawValue.int64 n => some ⟨CellType.CellTypeNumber, fmtInteger n⟩
  | RawValue.float64 f => some ⟨CellType.CellTypeNumber, fmtFloat f⟩
  | RawValue.time t => some ⟨CellType.CellTypeDatetime, formatRFC3339 t⟩
  | RawValue.other rendering => some ⟨CellType.CellTypeString, rendering⟩

/-! ## The sheet interface of the xlsx package

The `xlsx` package is a dependency; `main` uses `NewSheetWithColumns`, `NewRow`
and `AppendRow`. A sheet is modelled by its column schema and the rows handed
to it, in order. The zero value of `xlsx.Cell`, with which `NewRow` fills a
fresh row, is a parameter. -/

/-- Go `xlsx.Column{Name, Width}`. -/
structure Column where
  Name : GoString
  Width : Nat
  deriving DecidableEq, Repr

/-- Go `xlsx.Row`: its `Cells`. -/
structure Row where
  Cells : List Cell
  deriving DecidableEq, Repr

/-- Go `xlsx.Sheet`: the columns it was created with and the rows appended. -/
structure Sheet where
  columns : List Column
  rows : List Row
  deriving DecidableEq, Repr

/-- Go `xlsx.NewSheetWithColumns(c)`: a sheet with the given columns and no rows. -/
def NewSheetWithColumns (c : List Column) : Sheet := ⟨c, []⟩

/-- Go `sheet.NewRow()`: a row of `len(columns)` zero cells. -/
def Sheet.NewRow (zero : Cell) (s : Sheet) : Row := ⟨List.replicate s.columns.length zero⟩

/-- Go `sheet.AppendRow(r)`: rejects (second component `true`, the returned
error) a row whose length differs from the number of columns, otherwise adds it
after the rows already present. -/
def Sheet.AppendRow (s : Sheet) (r : Row) : Sheet × Bool :=
  if r.Cells.length != s.columns.length then (s, true)
  else ({ s with rows := s.rows ++ [r] }, false)

/-! ## The sheet-building part of main -/

/-- Go indexed assignment `xs[i] = v`: panics (`none`) when `i` is out of range. -/
def assign {α : Type} (xs : List α) (i : Nat) (v : α) : Option (List α) :=
  if i < xs.length then some (xs.set i v) else none

/-- The loop `for i, c := range columns { out[i] = f(i, c) }`, started at index `i`. -/
def rangeAssign {α β : Type} (f : Nat → α → Option β) : List α → Nat → List β → Option (List β)
  | [], _, out => some out
  | c :: cs, i, out =>
    (f i c).bind fun v => (assign out i v).bind fun out1 => rangeAssign f cs (i + 1) out1

/-- The assignments of `rows.Scan(dest...)` once the lengths agree: the i-th
column value is stored through the i-th destination pointer, in order; a
destination that is not a pointer stops the scan with an error. A pointer
`&values[p]` is modelled by the index `p`, a nil interface by `none`. -/
def scanAssign : List (Option Nat) → List RawValue → List RawValue → List RawValue × Bool
  | some p :: dest, v :: lastcols, values => scanAssign dest lastcols (values.set p v)
  | none :: _, _ :: _, values => (values, true)
  | _, _, values => (values, false)

/-- Go `rows.Scan(dest...)` on a row whose driver values are `lastcols`: an
error (second component) and no assignment when the number of destinations
differs from the number of columns of the row. -/
def Scan (lastcols : List RawValue) (dest : List (Option Nat)) (values : List RawValue) :
    List RawValue × Bool :=
  if dest.length != lastcols.length then (values, true)
  else scanAssign dest lastcols values

/-- Variables of `main` that live across iterations of the row loop. -/
structure LoopState where
  values : List RawValue
  valuePtrs : List (Option Nat)
  sheet : Sheet

/-- The loop `for rows.Next() { … }` of `main` (lines 184-199) over the rows the
result set yields. The results of `rows.Scan` and `sheet.AppendRow` are
discarded, as in the source. -/
def rowLoop (zero : Cell) (columns : List GoString) :
    List (List RawValue) → LoopState → Option LoopState
  | [], st => some st
  | lastcols :: rest, st =>
    let sheetRow := st.sheet.NewRow zero
    (rangeAssign (fun i _ => if i < st.values.length then some (some i) else none)
        columns 0 st.valuePtrs).bind fun valuePtrs =>
      let values := (Scan lastcols valuePtrs st.values).1
      (rangeAssign (fun i _ => (index values i).bind CellFromPostgres)
          columns 0 sheetRow.Cells).bind fun cells =>
        let sheet := (st.sheet.AppendRow { sheetRow with Cells := cells }).1
        rowLoop zero columns rest ⟨values, valuePtrs, sheet⟩

/-- Lines 163-199 of `main`: from the column names, the `-titles` flag and the
rows of the result set to the sheet that is then saved. -/
def buildSheet (zero : Cell) (columntitles : Bool) (columns : List GoString)
    (rows : List (List RawValue)) : Option Sheet :=
  let values := List.replicate columns.length RawValue.nil
  let valuePtrs : List (Option Nat) := List.replicate columns.length none
  let sheetColumns := List.replicate columns.length (Column.mk [] 0)
  (rangeAssign (fun _ c => some (Column.mk c 10)) columns 0 sheetColumns).bind fun sheetColumns =>
    let sheet := NewSheetWithColumns sheetColumns
    let titled : Option Sheet :=
      if columntitles then
        let titleRow := sheet.NewRow zero
        (rangeAssign (fun _ c => some (Cell.mk CellType.CellTypeString c))
            columns 0 titleRow.Cells).bind fun cells =>
          some (sheet.AppendRow { titleRow with Cells := cells }).1
      else some sheet
    titled.bind fun sheet =>
      (rowLoop zero columns rows ⟨values, valuePtrs, sheet⟩).bind fun st => some st.sheet

/-! ## passwordFromPgpass -/

/-- The package-level flag variables read by `passwordFromPgpass`. -/
structure Flags where
  hostname : GoString
  port : GoString
  dbname : GoString
  username : GoString
  filename : GoString

/-- Go `a && b` on operands that may panic: `b` is evaluated only if `a` is true. -/
def andThen (a b : Option Bool) : Option Bool :=
  a.bind fun x => if x then b else some false

/-- The condition of the `if` in the record loop (lines 266-269). -/
def recordMatches (g : Flags) (record : List GoString) : Option Bool :=
  andThen ((index record 0).bind fun f => some (f == g.hostname))
    (andThen ((index record 1).bind fun f => some (f == g.port))
      (andThen ((index record 2).bind fun f => some (f == g.dbname))
        ((index record 3).bind fun f => some (f == g.username))))

/-- The loop over the parsed records and the final `return` (lines 265-274):
the pair `(p, err)`, `err` being the message of the error or `none` for `nil`. -/
def searchRecords (g : Flags) : List (List GoString) → Option (GoString × Option GoString)
  | [] => some ([], some (ascii "Password for connection not found in " ++ g.filename))
  | record :: rest =>
    (recordMatches g record).bind fun m =>
      if m then (index record 4).bind fun p => some (p, none)
      else searchRecords g rest

/-- What opening and reading `~/.pgpass` gave: `os.Open` failed, `ReadAll` failed
(with `FieldsPerRecord = 5` this includes any record that has not five
fields), or the records were read. -/
inductive Pgpass
  | openError (err : GoString)
  | readError (err : GoString)
  | records (rs : List (List GoString))

/-- Go `passwordFromPgpass(user)`, given what the file system and the csv reader
return. -/
def passwordFromPgpass (g : Flags) : Pgpass → Option (GoString × Option GoString)
  | Pgpass.openError err => some ([], some err)
  | Pgpass.readError err => some ([], some err)
  | Pgpass.records rs => searchRecords g rs

/-! ## Specification-side vocabulary -/

/-- A byte string made of one or more ASCII decimal digits. -/
def digitsOnly (s : GoString) : Bool := !s.isEmpty && s.all isDigit

/-- What may follow the first digit of a plain decimal numeral: more digits,
then nothing or a `'.'` with at least one fraction digit. -/
def decimalTail : GoString → Bool
  | [] => true
  | c :: s => if isDigit c then decimalTail s else c == ch '.' && digitsOnly s

/-- The claim's plain decimal numeral: an optional sign, decimal digits, and
optionally a `'.'` followed by fraction digits; nothing else (no exponent, no
separators, no letters). -/
def isDecimalNumeral (t : GoString) : Bool :=
  let body := match t with
    | c :: s => if c == ch '+' || c == ch '-' then s else c :: s
    | [] => []
  match body with
  | c :: s => isDigit c && decimalTail s
  | [] => false

/-- The number written by a string of decimal digits, read from the left with
`acc` already read; `none` if a byte is not a digit. -/
def digitsValue : GoString → Nat → Option Nat
  | [], acc => some acc
  | c :: s, acc => if isDigit c then digitsValue s (acc * 10 + (c - ch '0').toNat) else none

/-- The integer written by a decimal numeral: an optional `'-'`, then one or
more digits and nothing else. -/
def parseDecimal : GoString → Option Int
  | [] => none
  | c :: s =>
    if c == ch '-' then
      if s.isEmpty then none else (digitsValue s 0).map fun (u : Nat) => -(u : Int)
    else (digitsValue (c :: s) 0).map fun (u : Nat) => (u : Int)

/-- The credential key of a record: its first four fields equal host, port,
database name and user name. -/
def keyMatches (g : Flags) (record : List GoString) : Bool :=
  record.take 4 == [g.hostname, g.port, g.dbname, g.username]

/-- The cell that `CellFromPostgres` returns (it always returns one). -/
def classify (v : RawValue) : Cell := (CellFromPostgres v).getD ⟨CellType.CellTypeString, []⟩

/-- The list `ts` holds what `f` returns along `cs`, the index counted from `i`. -/
def imageFrom {α β : Type} (f : Nat → α → Option β) : Nat → List α → List β → Prop
  | _, [], [] => True
  | i, c :: cs, t :: ts => f i c = some t ∧ imageFrom f (i + 1) cs ts
  | _, _, _ => False

/-! ## Lemmas -/

theorem ascii_dot : ascii "." = [ch '.'] := by decide

theorem startsWith_singleton (c : UInt8) (s : GoString) :
    startsWith s [c] = true ↔ s.head? = some c := by
  cases s with
  | nil => simp [startsWith]
  | cons a t => cases t <;> simp [startsWith]

theorem contains_singleton (c : UInt8) (s : GoString) : Contains s [c] = true ↔ c ∈ s := by
  induction s with
  | nil => simp [Contains]
  | cons a t ih =>
    simp only [Contains, Bool.or_eq_true, ih, startsWith_singleton, List.head?_cons,
      Option.some.injEq, List.mem_cons]
    constructor
    · rintro (h | h)
      · exact Or.inl h.symm
      · exact Or.inr h
    · rintro (h | h)
      · exact Or.inl h.symm
      · exact Or.inr h

theorem numericGuard_eq (s : GoString) :
    numericGuard s = some (decide (s ≠ []) && (decide (ch '.' ∈ s) || decide (s.head? ≠ some (ch '0')))) := by
  cases s with
  | nil => simp [numericGuard]
  | cons a t =>
    by_cases hd : ch '.' ∈ a :: t
    · have hc : Contains (a :: t) (ascii ".") = true := by
        rw [ascii_dot]; exact (contains_singleton _ _).2 hd
      simp [numericGuard, hc, hd]
    · have hc : Contains (a :: t) (ascii ".") = false := by
        rw [ascii_dot]
        cases h : Contains (a :: t) [ch '.'] with
        | false => rfl
        | true => exact absurd ((contains_singleton _ _).1 h) hd
      simp only [numericGuard, hc, index]
      simp [hd]
      rfl

/-! ## Theorems: the value classifier -/

/-- C1: a byte/text value whose first byte is `'0'` and which contains no `'.'`
becomes a String cell holding exactly that value, whatever the float parser
would say about it. -/
theorem leading_zero_without_dot_is_string (s : GoString)
    (hzero : s.head? = some (ch '0')) (hdot : ch '.' ∉ s) :
    CellFromPostgres (RawValue.bytes s) = some ⟨CellType.CellTypeString, s⟩ := by
  simp [CellFromPostgres, numericGuard_eq, hzero, hdot]

theorem leading_zero_without_dot_is_string_witness :
    CellFromPostgres (RawValue.bytes (ascii "007")) = some ⟨CellType.CellTypeString, ascii "007"⟩ ∧
    CellFromPostgres (RawValue.bytes (ascii "0e5")) = some ⟨CellType.CellTypeString, ascii "0e5"⟩ ∧
    ParseFloat (ascii "0e5") 10 = none :=
  ⟨leading_zero_without_dot_is_string (ascii "007") (by decide) (by decide),
   leading_zero_without_dot_is_string (ascii "0e5") (by decide) (by decide),
   by decide⟩

/-- C2: a non-empty byte/text value that contains `'.'` or does not start with
`'0'` becomes a Number cell with the value as text, unchanged, when
`strconv.ParseFloat` returns no error, and a String cell with the value as text
when it returns an error. -/
theorem dot_or_other_lead_follows_ParseFloat (s : GoString) (hne : s ≠ [])
    (h : ch '.' ∈ s ∨ s.head? ≠ some (ch '0')) :
    CellFromPostgres (RawValue.bytes s) =
      some (if ParseFloat s 10 = none then ⟨CellType.CellTypeNumber, s⟩
            else ⟨CellType.CellTypeString, s⟩) := by
  have hg : numericGuard s = some true := by
    rw [numericGuard_eq]
    rcases h with h | h <;> simp [hne, h]
  by_cases hp : ParseFloat s 10 = none <;> simp [CellFromPostgres, hg, hp]

theorem dot_or_other_lead_follows_ParseFloat_witness :
    CellFromPostgres (RawValue.bytes (ascii "19.99")) = some ⟨CellType.CellTypeNumber, ascii "19.99"⟩ ∧
    CellFromPostgres (RawValue.bytes (ascii "0.5")) = some ⟨CellType.CellTypeNumber, ascii "0.5"⟩ ∧
    CellFromPostgres (RawValue.bytes (ascii "-5")) = some ⟨CellType.CellTypeNumber, ascii "-5"⟩ ∧
    CellFromPostgres (RawValue.bytes (ascii "abc")) = some ⟨CellType.CellTypeString, ascii "abc"⟩ ∧
    CellFromPostgres (RawValue.bytes (ascii "1.2.3")) = some ⟨CellType.CellTypeString, ascii "1.2.3"⟩ :=
  ⟨(dot_or_other_lead_follows_ParseFloat (ascii "19.99") (by decide) (by decide)).trans (by decide),
   (dot_or_other_lead_follows_ParseFloat (ascii "0.5") (by decide) (by decide)).trans (by decide),
   (dot_or_other_lead_follows_ParseFloat (ascii "-5") (by decide) (by decide)).trans (by decide),
   (dot_or_other_lead_follows_ParseFloat (ascii "abc") (by decide) (by decide)).trans (by decide),
   (dot_or_other_lead_follows_ParseFloat (ascii "1.2.3") (by decide) (by decide)).trans (by decide)⟩

/-- C4: a nil value becomes the String cell with empty text. -/
theorem nil_is_empty_string :
    CellFromPostgres RawValue.nil = some ⟨CellType.CellTypeString, []⟩ := rfl

/-- C5: a boolean becomes a String cell, never a Number cell, with text `Y` for
true and `N` for false. -/
theorem bool_is_Y_or_N (b : Bool) :
    CellFromPostgres (RawValue.bool b) =
        some ⟨CellType.CellTypeString, if b then ascii "Y" else ascii "N"⟩ ∧
      (CellFromPostgres (RawValue.bool b)).map Cell.kind = some CellType.CellTypeString := by
  cases b <;> exact ⟨rfl, rfl⟩

/-- C7: `CellFromPostgres` returns a cell for every value and never panics: the
guard of the byte branch always evaluates (its `s[0]` is reached only for a
non-empty `s`), and a value of a type without a case of its own gives a String
cell. -/
theorem CellFromPostgres_total :
    (∀ v : RawValue, ∃ c, CellFromPostgres v = some c) ∧
    (∀ s : GoString, ∃ g, numericGuard s = some g) ∧
    CellFromPostgres (RawValue.bytes []) = some ⟨CellType.CellTypeString, []⟩ ∧
    (∀ rendering : GoString, CellFromPostgres (RawValue.other rendering) =
      some ⟨CellType.CellTypeString, rendering⟩) := by
  refine ⟨?_, fun s => ⟨_, numericGuard_eq s⟩, rfl, fun _ => rfl⟩
  · intro v
    cases v with
    | nil => exact ⟨_, rfl⟩
    | bytes s =>
      by_cases hp : (decide (s ≠ []) && (decide (ch '.' ∈ s) || decide (s.head? ≠ some (ch '0')))
          && ParseFloat s 10 == none) = true
      · exact ⟨_, by simp only [CellFromPostgres, numericGuard_eq, Option.some_bind, hp]; rfl⟩
      · exact ⟨_, by simp only [CellFromPostgres, numericGuard_eq, Option.some_bind, hp]; rfl⟩
    | bool b => cases b <;> exact ⟨_, rfl⟩
    | int64 n => exact ⟨_, rfl⟩
    | float64 f => exact ⟨_, rfl⟩
    | time t => exact ⟨_, rfl⟩
    | other r => exact ⟨_, rfl⟩

/-! ## Lemmas: decimal digits -/

theorem digitByte_isDigit (d : Nat) (h : d < 10) : isDigit (digitByte d) = true := by
  interval_cases d <;> decide

theorem digitByte_toNat (d : Nat) (h : d < 10) : (digitByte d - ch '0').toNat = d := by
  interval_cases d <;> decide

theorem digitByte_ne_zero (d : Nat) (h : d < 10) (h0 : d ≠ 0) : digitByte d ≠ ch '0' := by
  interval_cases d <;> first | exact absurd rfl h0 | decide

theorem digitByte_ne_minus (d : Nat) (h : d < 10) : (digitByte d == ch '-') = false := by
  interval_cases d <;> decide

theorem fmtDigits_buf (fuel u : Nat) (buf : GoString) :
    fmtDigits fuel u buf = fmtDigits fuel u [] ++ buf := by
  induction fuel generalizing u buf with
  | zero => simp [fmtDigits]
  | succ k ih =>
    unfold fmtDigits
    split
    · rw [ih (u / 10) (_ :: buf), ih (u / 10) [_]]
      simp
    · simp

theorem div_ten_lt {k u : Nat} (h : u < 10 ^ (k + 2)) : u / 10 < 10 ^ (k + 1) := by
  rw [Nat.div_lt_iff_lt_mul (by norm_num)]
  calc u < 10 ^ (k + 2) := h
    _ = 10 ^ (k + 1) * 10 := by ring

theorem fmtDigits_all (fuel u : Nat) (h : u < 10 ^ (fuel + 1)) :
    (fmtDigits fuel u []).all isDigit = true := by
  induction fuel generalizing u with
  | zero => simp [fmtDigits, digitByte_isDigit u (by simpa using h)]
  | succ k ih =>
    unfold fmtDigits
    split
    · rw [fmtDigits_buf]
      simp only [List.all_append, List.all_cons, List.all_nil, Bool.and_true, Bool.and_eq_true]
      exact ⟨ih _ (div_ten_lt h), digitByte_isDigit _ (by omega)⟩
    · simp [digitByte_isDigit u (by omega)]

theorem fmtDigits_ne_nil (fuel u : Nat) (buf : GoString) : fmtDigits fuel u buf ≠ [] := by
  induction fuel generalizing u buf with
  | zero => simp [fmtDigits]
  | succ k ih =>
    unfold fmtDigits
    split
    · exact ih _ _
    · simp

theorem fmtDigits_head (fuel u : Nat) (buf : GoString) (h : u < 10 ^ (fuel + 1)) (h0 : u ≠ 0) :
    ∃ d, d < 10 ∧ d ≠ 0 ∧ (fmtDigits fuel u buf).head? = some (digitByte d) := by
  induction fuel generalizing u buf with
  | zero => exact ⟨u, by simpa using h, h0, by simp [fmtDigits]⟩
  | succ k ih =>
    unfold fmtDigits
    split
    · exact ih _ _ (div_ten_lt h) (by omega)
    · exact ⟨u, by omega, h0, by simp⟩

theorem fmtDigits_zero (fuel : Nat) : fmtDigits fuel 0 [] = [ch '0'] := by
  cases fuel <;> simp [fmtDigits] <;> decide

theorem digitsValue_snoc (xs : GoString) (d acc : Nat) (h : d < 10) :
    digitsValue (xs ++ [digitByte d]) acc = (digitsValue xs acc).map fun a => a * 10 + d := by
  induction xs generalizing acc with
  | nil => simp [digitsValue, digitByte_isDigit d h, digitByte_toNat d h]
  | cons c s ih =>
    simp only [List.cons_append, digitsValue]
    split
    · exact ih _
    · rfl

theorem digitsValue_fmtDigits (fuel u : Nat) (h : u < 10 ^ (fuel + 1)) :
    digitsValue (fmtDigits fuel u []) 0 = some u := by
  induction fuel generalizing u with
  | zero =>
    have hu : u < 10 := by simpa using h
    simp [fmtDigits, digitsValue, digitByte_isDigit u hu, digitByte_toNat u hu]
  | succ k ih =>
    unfold fmtDigits
    split
    · rw [fmtDigits_buf, digitsValue_snoc _ _ _ (by omega), ih _ (div_ten_lt h)]
      simp only [Option.map_some', Option.some.injEq]
      omega
    · have hu : u < 10 := by omega
      simp [digitsValue, digitByte_isDigit u hu, digitByte_toNat u hu]

theorem int64_magnitude (n : Int64) : n.val.natAbs < 10 ^ (20 + 1) := by
  have h1 := n.lo
  have h2 := n.hi
  norm_num
  omega

/-! ## Theorems: integers -/

/-- C6: an int64 becomes a Number cell whose text is the base-10 numeral of the
integer: a `'-'` exactly for negative values, then digits only, without leading
zeros (the numeral of zero is `0`), and reading the text back as a decimal
integer gives the integer. This covers the whole int64 range. -/
theorem int64_is_decimal_number (n : Int64) :
    CellFromPostgres (RawValue.int64 n) = some ⟨CellType.CellTypeNumber, fmtInteger n⟩ ∧
    parseDecimal (fmtInteger n) = some n.val ∧
    ∃ digits : GoString,
      fmtInteger n = (if n.val < 0 then [ch '-'] else []) ++ digits ∧
      digits ≠ [] ∧ digits.all isDigit = true ∧
      (digits = [ch '0'] ∨ digits.head? ≠ some (ch '0')) := by
  have hm := int64_magnitude n
  have hval := digitsValue_fmtDigits 20 n.val.natAbs hm
  refine ⟨rfl, ?_, fmtDigits 20 n.val.natAbs [], ?_, fmtDigits_ne_nil _ _ _,
    fmtDigits_all _ _ hm, ?_⟩
  · by_cases hneg : n.val < 0
    · have hne := fmtDigits_ne_nil 20 n.val.natAbs []
      simp only [fmtInteger, hneg, decide_True, if_true, parseDecimal, beq_self_eq_true,
        hval, Option.map_some']
      cases hl : fmtDigits 20 n.val.natAbs [] with
      | nil => exact absurd hl hne
      | cons a t =>
        simp only [List.isEmpty_cons, Bool.false_eq_true, if_false, Option.some.injEq]
        omega
    · simp only [fmtInteger, hneg, decide_False, Bool.false_eq_true, if_false]
      by_cases h0 : n.val.natAbs = 0
      · have hz : n.val = 0 := by omega
        rw [h0, fmtDigits_zero, hz]
        decide
      · obtain ⟨d, hd, hd0, hh⟩ := fmtDigits_head 20 n.val.natAbs [] hm h0
        cases hl : fmtDigits 20 n.val.natAbs [] with
        | nil => exact absurd hl (fmtDigits_ne_nil _ _ _)
        | cons a t =>
          rw [hl] at hh hval
          simp only [List.head?_cons, Option.some.injEq] at hh
          subst hh
          simp only [parseDecimal, digitByte_ne_minus d hd, Bool.false_eq_true, if_false, hval,
            Option.map_some', Option.some.injEq]
          omega
  · by_cases hneg : n.val < 0 <;> simp [fmtInteger, hneg]
  · by_cases h0 : n.val.natAbs = 0
    · left
      rw [h0, fmtDigits_zero]
    · right
      obtain ⟨d, hd, hd0, hh⟩ := fmtDigits_head 20 n.val.natAbs [] hm h0
      rw [hh]
      intro h
      exact digitByte_ne_zero d hd hd0 (Option.some.inj h)

/-- The numerals of the two extreme int64 values and of zero. -/
theorem int64_extremes :
    CellFromPostgres (RawValue.int64 ⟨-9223372036854775808, by decide, by decide⟩) =
      some ⟨CellType.CellTypeNumber, ascii "-9223372036854775808"⟩ ∧
    CellFromPostgres (RawValue.int64 ⟨9223372036854775807, by decide, by decide⟩) =
      some ⟨CellType.CellTypeNumber, ascii "9223372036854775807"⟩ ∧
    CellFromPostgres (RawValue.int64 ⟨0, by decide, by decide⟩) =
      some ⟨CellType.CellTypeNumber, ascii "0"⟩ := by
  decide

/-! ## Lemmas: plain decimal numerals -/

theorem isDigit_not_sign (c : UInt8) (h : isDigit c = true) :
    (c == ch '+' || c == ch '-') = false := by
  rw [Bool.or_eq_false_iff]
  constructor
  · cases hc : c == ch '+' with
    | false => rfl
    | true =>
      have : c = ch '+' := by simpa using hc
      subst this
      exact absurd h (by decide)
  · cases hc : c == ch '-' with
    | false => rfl
    | true =>
      have : c = ch '-' := by simpa using hc
      subst this
      exact absurd h (by decide)

theorem decimalTail_of_all (xs : GoString) (h : xs.all isDigit = true) : decimalTail xs = true := by
  induction xs with
  | nil => rfl
  | cons c s ih =>
    simp only [List.all_cons, Bool.and_eq_true] at h
    simp [decimalTail, h.1, ih h.2]

theorem decimalTail_dot (xs frac : GoString) (h : xs.all isDigit = true)
    (hf : digitsOnly frac = true) : decimalTail (xs ++ ch '.' :: frac) = true := by
  induction xs with
  | nil =>
    have hdot : isDigit (ch '.') = false := by decide
    simp [decimalTail, hdot, hf]
  | cons c s ih =>
    simp only [List.all_cons, Bool.and_eq_true] at h
    simp [decimalTail, h.1, ih h.2]

theorem isDecimalNumeral_signed (neg : Bool) (c : UInt8) (s : GoString) (hc : isDigit c = true)
    (hs : decimalTail s = true) :
    isDecimalNumeral (if neg then ch '-' :: c :: s else c :: s) = true := by
  cases neg
  · simp [isDecimalNumeral, isDigit_not_sign c hc, hc, hs]
  · simp [isDecimalNumeral, hc, hs]

theorem fmtInteger_isDecimalNumeral (n : Int64) : isDecimalNumeral (fmtInteger n) = true := by
  have hall := fmtDigits_all 20 n.val.natAbs (int64_magnitude n)
  cases hl : fmtDigits 20 n.val.natAbs [] with
  | nil => exact absurd hl (fmtDigits_ne_nil _ _ _)
  | cons c s =>
    rw [hl] at hall
    simp only [List.all_cons, Bool.and_eq_true] at hall
    simp only [fmtInteger, hl]
    exact isDecimalNumeral_signed _ c s hall.1 (decimalTail_of_all s hall.2)

theorem roundHalfEven_le (num den : Nat) : roundHalfEven num den ≤ num + 1 := by
  have h := Nat.div_le_self num den
  unfold roundHalfEven
  simp only
  split <;> omega

theorem padDigits_digitsOnly (width : Nat) (digits : GoString) (hne : digits ≠ [])
    (h : digits.all isDigit = true) : digitsOnly (padDigits width digits) = true := by
  have hz : isDigit (ch '0') = true := by decide
  cases digits with
  | nil => exact absurd rfl hne
  | cons c s =>
    simp only [digitsOnly, padDigits, List.isEmpty_eq_true, List.append_eq_nil, and_false,
      decide_False, Bool.not_false, Bool.true_and, List.all_append, Bool.and_eq_true, h, and_true]
    simp [List.all_replicate, hz]

theorem float_integer_part_bound (f : Float64) (hfin : f.expo.val ≠ 2047) :
    let mant : Nat := if f.expo.val == 0 then f.frac.val else 4503599627370496 + f.frac.val
    let exp : Nat := if f.expo.val == 0 then 1 else f.expo.val
    (if exp ≥ 1075 then (mant <<< (exp - 1075)) * 1000000
      else roundHalfEven (mant * 1000000) (1 <<< (1075 - exp))) / 1000000 < 10 ^ (320 + 1) := by
  intro mant exp
  have hfrac : f.frac.val < 4503599627370496 := f.frac.isLt
  have hexpo : f.expo.val < 2048 := f.expo.isLt
  have hmant : mant < 2 ^ 53 := by
    show (if f.expo.val == 0 then f.frac.val else 4503599627370496 + f.frac.val) < 2 ^ 53
    split <;> norm_num <;> omega
  have hexp : exp ≤ 2046 := by
    show (if f.expo.val == 0 then 1 else f.expo.val) ≤ 2046
    split <;> omega
  have hbig : (2 : Nat) ^ 53 * 2 ^ 971 < 10 ^ (320 + 1) := by norm_num
  split
  · rw [Nat.mul_div_cancel _ (by norm_num), Nat.shiftLeft_eq]
    have hle : exp - 1075 ≤ 971 := by omega
    have h2 : 2 ^ (exp - 1075) ≤ 2 ^ 971 := Nat.pow_le_pow_right (Nat.succ_pos 1) hle
    calc mant * 2 ^ (exp - 1075) ≤ mant * 2 ^ 971 := Nat.mul_le_mul_left _ h2
      _ < 2 ^ 53 * 2 ^ 971 := Nat.mul_lt_mul_of_pos_right hmant (by positivity)
      _ < 10 ^ (320 + 1) := hbig
  · have h1 := roundHalfEven_le (mant * 1000000) (1 <<< (1075 - exp))
    have h3 : mant * 1000000 + 1 < 10 ^ (320 + 1) := by
      have : mant * 1000000 + 1 < 2 ^ 53 * 1000000 + 1 := by omega
      have h4 : (2 : Nat) ^ 53 * 1000000 + 1 < 10 ^ (320 + 1) := by norm_num
      omega
    exact lt_of_le_of_lt (Nat.div_le_self _ _) (lt_of_le_of_lt h1 h3)

theorem fmtFloat_finite (f : Float64) (hfin : f.expo.val ≠ 2047) :
    isDecimalNumeral (fmtFloat f) = true := by
  have hb := float_integer_part_bound f hfin
  simp only at hb
  have hne : (f.expo.val == 2047) = false := by simpa using hfin
  simp only [fmtFloat, hne, Bool.false_eq_true, if_false]
  generalize hq : (if (if f.expo.val == 0 then 1 else f.expo.val) ≥ 1075 then
      ((if f.expo.val == 0 then f.frac.val else 4503599627370496 + f.frac.val) <<<
        ((if f.expo.val == 0 then 1 else f.expo.val) - 1075)) * 1000000
    else roundHalfEven ((if f.expo.val == 0 then f.frac.val else 4503599627370496 + f.frac.val) * 1000000)
      (1 <<< (1075 - (if f.expo.val == 0 then 1 else f.expo.val)))) = scaled at hb ⊢
  have hall := fmtDigits_all 320 (scaled / 1000000) hb
  have hfrac := padDigits_digitsOnly 6 (fmtDigits 6 (scaled % 1000000) [])
    (fmtDigits_ne_nil _ _ _)
    (fmtDigits_all 6 _ (lt_of_lt_of_le (Nat.mod_lt _ (by norm_num)) (by norm_num)))
  cases hl : fmtDigits 320 (scaled / 1000000) [] with
  | nil => exact absurd hl (fmtDigits_ne_nil _ _ _)
  | cons c s =>
    rw [hl] at hall
    simp only [List.all_cons, Bool.and_eq_true] at hall
    simp only [List.cons_append]
    exact isDecimalNumeral_signed f.sign c _ hall.1 (decimalTail_dot s _ hall.2 hfrac)

theorem fmtFloat_special (f : Float64) (hspecial : f.expo.val = 2047) :
    fmtFloat f = ascii "NaN" ∨ fmtFloat f = ascii "+Inf" ∨ fmtFloat f = ascii "-Inf" := by
  have h1 : (f.expo.val == 2047) = true := by simpa using hspecial
  simp only [fmtFloat, h1, if_true]
  by_cases h2 : (f.frac.val != 0) = true
  · simp [h2]
  · cases hs : f.sign <;> simp [h2, hs]

/-! ## Theorems: Number cells -/

/-- C3, as stated, fails: the byte value `1e5` is accepted by the float parser
and becomes a Number cell with text `1e5`, which has an exponent letter and is
not a plain decimal numeral; and the float64 not-a-number becomes a Number
cell with text `NaN`. -/
theorem number_text_not_always_plain_decimal :
    (CellFromPostgres (RawValue.bytes (ascii "1e5")) = some ⟨CellType.CellTypeNumber, ascii "1e5"⟩ ∧
      isDecimalNumeral (ascii "1e5") = false ∧ ch 'e' ∈ ascii "1e5") ∧
    (CellFromPostgres (RawValue.float64 ⟨false, 2047, 1⟩) = some ⟨CellType.CellTypeNumber, ascii "NaN"⟩ ∧
      isDecimalNumeral (ascii "NaN") = false) := by
  decide

/-- C3, amended: a Number cell comes from an int64, a float64 or a byte/text
value. From an int64 its text is a plain decimal numeral. From a float64 its
text is the `%f` rendering: a plain decimal numeral when the float is finite,
and one of `NaN`, `+Inf`, `-Inf` otherwise. From a byte/text value its text is
that value unchanged, and `strconv.ParseFloat` accepts it. -/
theorem number_cell_text (v : RawValue) (c : Cell) (h : CellFromPostgres v = some c)
    (hk : c.kind = CellType.CellTypeNumber) :
    (∃ n, v = RawValue.int64 n ∧ isDecimalNumeral c.text = true) ∨
    (∃ f, v = RawValue.float64 f ∧ c.text = fmtFloat f ∧
      (if f.expo.val = 2047 then
        c.text = ascii "NaN" ∨ c.text = ascii "+Inf" ∨ c.text = ascii "-Inf"
       else isDecimalNumeral c.text = true)) ∨
    (∃ s, v = RawValue.bytes s ∧ c.text = s ∧ ParseFloat s 10 = none) := by
  cases v with
  | nil =>
    simp only [CellFromPostgres, Option.some.injEq] at h
    subst h
    simp at hk
  | bytes s =>
    right; right
    refine ⟨s, rfl, ?_⟩
    simp only [CellFromPostgres, numericGuard_eq, Option.some_bind] at h
    split at h
    · rename_i hg
      simp only [Option.some.injEq] at h
      subst h
      simp only [Bool.and_eq_true, beq_iff_eq] at hg
      exact ⟨rfl, hg.2⟩
    · simp only [Option.some.injEq] at h
      subst h
      simp at hk
  | bool b =>
    cases b <;>
    · simp [CellFromPostgres] at h
      subst h
      simp at hk
  | int64 n =>
    left
    simp only [CellFromPostgres, Option.some.injEq] at h
    subst h
    exact ⟨n, rfl, fmtInteger_isDecimalNumeral n⟩
  | float64 f =>
    right; left
    simp only [CellFromPostgres, Option.some.injEq] at h
    subst h
    refine ⟨f, rfl, rfl, ?_⟩
    split
    · rename_i hs
      exact fmtFloat_special f hs
    · rename_i hs
      exact fmtFloat_finite f hs
  | time t =>
    simp only [CellFromPostgres, Option.some.injEq] at h
    subst h
    simp at hk
  | other r =>
    simp only [CellFromPostgres, Option.some.injEq] at h
    subst h
    simp at hk

theorem number_cell_text_witness :
    (∃ n, RawValue.bytes (ascii "2.50") = RawValue.int64 n ∧ isDecimalNumeral (ascii "2.50") = true) ∨
    (∃ f, RawValue.bytes (ascii "2.50") = RawValue.float64 f ∧ ascii "2.50" = fmtFloat f ∧
      (if f.expo.val = 2047 then
        ascii "2.50" = ascii "NaN" ∨ ascii "2.50" = ascii "+Inf" ∨ ascii "2.50" = ascii "-Inf"
       else isDecimalNumeral (ascii "2.50") = true)) ∨
    (∃ s, RawValue.bytes (ascii "2.50") = RawValue.bytes s ∧ ascii "2.50" = s ∧
      ParseFloat s 10 = none) :=
  number_cell_text (RawValue.bytes (ascii "2.50")) ⟨CellType.CellTypeNumber, ascii "2.50"⟩
    (by decide) rfl

/-! ## Lemmas: the loops of main -/

theorem CellFromPostgres_eq_classify (v : RawValue) : CellFromPostgres v = some (classify v) := by
  have h : ∃ c, CellFromPostgres v = some c := by
    cases v with
    | bytes s =>
      simp only [CellFromPostgres, numericGuard_eq, Option.some_bind]
      split <;> exact ⟨_, rfl⟩
    | bool b => cases b <;> exact ⟨_, rfl⟩
    | _ => exact ⟨_, rfl⟩
  obtain ⟨c, hc⟩ := h
  simp [classify, hc]

theorem imageFrom_length {α β : Type} (f : Nat → α → Option β) (i : Nat) (cs : List α)
    (ts : List β) (h : imageFrom f i cs ts) : ts.length = cs.length := by
  induction cs generalizing i ts with
  | nil => cases ts <;> simp_all [imageFrom]
  | cons c cs ih =>
    cases ts with
    | nil => simp [imageFrom] at h
    | cons t ts => simp [ih (i + 1) ts h.2]

theorem set_length_append {β : Type} (done : List β) (r t : β) (rest : List β) :
    (done ++ r :: rest).set done.length t = done ++ t :: rest := by
  induction done with
  | nil => rfl
  | cons a l ih => simp [ih]

theorem rangeAssign_fill {α β : Type} (f : Nat → α → Option β) (cs : List α) (i : Nat)
    (done rest ts : List β) (hdone : done.length = i) (hrest : rest.length = cs.length)
    (h : imageFrom f i cs ts) : rangeAssign f cs i (done ++ rest) = some (done ++ ts) := by
  induction cs generalizing i done rest ts with
  | nil =>
    cases ts with
    | nil =>
      have : rest = [] := List.length_eq_zero.mp hrest
      simp [rangeAssign, this]
    | cons t ts => simp [imageFrom] at h
  | cons c cs ih =>
    cases ts with
    | nil => simp [imageFrom] at h
    | cons t ts =>
      cases rest with
      | nil => simp at hrest
      | cons r rest =>
        have hlt : i < (done ++ r :: rest).length := by simp; omega
        have hset : (done ++ r :: rest).set i t = (done ++ [t]) ++ rest := by
          rw [← hdone, set_length_append]; simp
        simp only [rangeAssign, h.1, Option.some_bind, assign, hlt, if_true, hset]
        rw [ih (i + 1) (done ++ [t]) rest ts (by simp [hdone]) (by simpa using hrest) h.2]
        simp

theorem rangeAssign_all {α β : Type} (f : Nat → α → Option β) (cs : List α)
    (init ts : List β) (hinit : init.length = cs.length) (h : imageFrom f 0 cs ts) :
    rangeAssign f cs 0 init = some ts := by
  simpa using rangeAssign_fill f cs 0 [] init ts rfl hinit h

theorem imageFrom_map {α β : Type} (g : α → β) (i : Nat) (cs : List α) :
    imageFrom (fun _ c => some (g c)) i cs (cs.map g) := by
  induction cs generalizing i with
  | nil => trivial
  | cons c cs ih => exact ⟨rfl, ih (i + 1)⟩

theorem imageFrom_pointers {α : Type} (k i : Nat) (cs : List α) (h : i + cs.length ≤ k) :
    imageFrom (fun j (_ : α) => if j < k then some (some j) else none) i cs
      ((List.range' i cs.length).map some) := by
  induction cs generalizing i with
  | nil => trivial
  | cons c cs ih =>
    simp only [List.length_cons] at h
    refine ⟨?_, ?_⟩
    · have : i < k := by omega
      simp [this]
    · exact ih (i + 1) (by omega)

theorem imageFrom_cells {α : Type} (values : List RawValue) (i : Nat) (cs : List α)
    (h : i + cs.length = values.length) :
    imageFrom (fun j (_ : α) => (index values j).bind CellFromPostgres) i cs
      ((values.drop i).map classify) := by
  induction cs generalizing i with
  | nil =>
    have : values.drop i = [] := List.drop_eq_nil_of_le (by simp at h; omega)
    simp [this, imageFrom]
  | cons c cs ih =>
    simp only [List.length_cons] at h
    have hi : i < values.length := by omega
    have hd : values.drop i = values[i] :: values.drop (i + 1) := List.drop_eq_getElem_cons hi
    rw [hd]
    refine ⟨?_, ?_⟩
    · simp [index, List.getElem?_eq_getElem hi, CellFromPostgres_eq_classify]
    · exact ih (i + 1) (by omega)

theorem scanAssign_pointers (lastcols done old : List RawValue) (i : Nat)
    (hdone : done.length = i) (hold : old.length = lastcols.length) :
    scanAssign ((List.range' i lastcols.length).map some) lastcols (done ++ old) =
      (done ++ lastcols, false) := by
  induction lastcols generalizing done old i with
  | nil =>
    have : old = [] := List.length_eq_zero.mp hold
    simp [scanAssign, this]
  | cons v vs ih =>
    cases old with
    | nil => simp at hold
    | cons o old =>
      have hset : (done ++ o :: old).set i v = (done ++ [v]) ++ old := by
        rw [← hdone, set_length_append]; simp
      simp only [List.length_cons, List.range'_succ, List.map_cons, scanAssign, hset]
      rw [ih (done ++ [v]) old (i + 1) (by simp [hdone]) (by simpa using hold)]
      simp

theorem rowLoop_spec (zero : Cell) (columns : List GoString) (rows : List (List RawValue))
    (st : LoopState) (hv : st.values.length = columns.length)
    (hp : st.valuePtrs.length = columns.length)
    (hc : st.sheet.columns.length = columns.length)
    (hrows : ∀ r ∈ rows, r.length = columns.length) :
    ∃ st1, rowLoop zero columns rows st = some st1 ∧
      st1.sheet.columns = st.sheet.columns ∧
      st1.sheet.rows = st.sheet.rows ++ rows.map fun r => Row.mk (r.map classify) := by
  induction rows generalizing st with
  | nil => exact ⟨st, rfl, rfl, by simp⟩
  | cons r rest ih =>
    have hr : r.length = columns.length := hrows r (List.mem_cons_self _ _)
    have hptr : rangeAssign (fun i (_ : GoString) => if i < st.values.length then some (some i) else none)
        columns 0 st.valuePtrs = some ((List.range' 0 columns.length).map some) :=
      rangeAssign_all _ _ _ _ hp (imageFrom_pointers _ 0 columns (by omega))
    have hscan : Scan r ((List.range' 0 columns.length).map some) st.values = (r, false) := by
      have h := scanAssign_pointers r [] st.values 0 rfl (by omega)
      rw [hr] at h
      simpa [Scan, hr] using h
    have hcells : rangeAssign (fun i (_ : GoString) => (index r i).bind CellFromPostgres)
        columns 0 (st.sheet.NewRow zero).Cells = some (r.map classify) := by
      have h := rangeAssign_all _ columns (st.sheet.NewRow zero).Cells _
        (by simp [Sheet.NewRow, hc]) (imageFrom_cells r 0 columns (by omega))
      simpa using h
    have happ : (st.sheet.AppendRow { st.sheet.NewRow zero with Cells := r.map classify }).1 =
        { st.sheet with rows := st.sheet.rows ++ [Row.mk (r.map classify)] } := by
      simp [Sheet.AppendRow, hr, hc]
    obtain ⟨st1, h1, h2, h3⟩ := ih
      ⟨r, (List.range' 0 columns.length).map some,
        { st.sheet with rows := st.sheet.rows ++ [Row.mk (r.map classify)] }⟩
      hr (by simp) hc (fun x hx => hrows x (List.mem_cons_of_mem _ hx))
    refine ⟨st1, ?_, h2, ?_⟩
    · simp only [rowLoop, hptr, Option.some_bind, hscan, hcells, happ]
      exact h1
    · rw [h3]
      simp

theorem map_classify_some (rows : List (List RawValue)) :
    (rows.map fun r => Row.mk (r.map classify)).map (fun r => r.Cells.map some) =
      rows.map fun r => r.map CellFromPostgres := by
  simp only [List.map_map]
  apply List.map_congr_left
  intro r _
  simp only [Function.comp, List.map_map]
  apply List.map_congr_left
  intro v _
  exact (CellFromPostgres_eq_classify v).symm

/-! ## Theorems: building the sheet -/

/-- C8: the row loop of `main` appends to the sheet exactly one row per result
row, in result order, after the rows already there; the i-th cell of the j-th
appended row is what `CellFromPostgres` returns for the i-th column value of the
j-th result row. Each result row has one value per column. -/
theorem rowLoop_appends_rows_in_order (zero : Cell) (columns : List GoString)
    (rows : List (List RawValue)) (st : LoopState)
    (hv : st.values.length = columns.length) (hp : st.valuePtrs.length = columns.length)
    (hc : st.sheet.columns.length = columns.length)
    (hrows : ∀ r ∈ rows, r.length = columns.length) :
    ∃ st1 dataRows, rowLoop zero columns rows st = some st1 ∧
      st1.sheet.rows = st.sheet.rows ++ dataRows ∧
      dataRows.length = rows.length ∧
      dataRows.map (fun r => r.Cells.map some) = rows.map fun r => r.map CellFromPostgres := by
  obtain ⟨st1, h1, _, h3⟩ := rowLoop_spec zero columns rows st hv hp hc hrows
  exact ⟨st1, _, h1, h3, by simp, map_classify_some rows⟩

theorem rowLoop_appends_rows_in_order_witness :
    ∃ st1 dataRows,
      rowLoop ⟨CellType.CellTypeNumber, []⟩ [ascii "code", ascii "price"]
          [[RawValue.bytes (ascii "0042"), RawValue.bytes (ascii "19.99")],
           [RawValue.nil, RawValue.bool true]]
          ⟨[RawValue.nil, RawValue.nil], [none, none],
           NewSheetWithColumns [⟨ascii "code", 10⟩, ⟨ascii "price", 10⟩]⟩ = some st1 ∧
      st1.sheet.rows = [] ++ dataRows ∧
      dataRows.length = 2 ∧
      dataRows.map (fun r => r.Cells.map some) =
        [[RawValue.bytes (ascii "0042"), RawValue.bytes (ascii "19.99")],
         [RawValue.nil, RawValue.bool true]].map fun r => r.map CellFromPostgres :=
  rowLoop_appends_rows_in_order ⟨CellType.CellTypeNumber, []⟩ [ascii "code", ascii "price"]
    [[RawValue.bytes (ascii "0042"), RawValue.bytes (ascii "19.99")],
     [RawValue.nil, RawValue.bool true]]
    ⟨[RawValue.nil, RawValue.nil], [none, none],
     NewSheetWithColumns [⟨ascii "code", 10⟩, ⟨ascii "price", 10⟩]⟩
    rfl rfl rfl (by simp)

/-- C9: with column titles enabled the sheet built by `main` starts with the
row of String cells holding the column names, in column order, followed by the
data rows; with titles disabled it holds the data rows only. For an empty
result set this is the title row alone, or no row at all. The sheet's columns
are the result columns, each of width 10. -/
theorem buildSheet_title_toggle (zero : Cell) (columntitles : Bool) (columns : List GoString)
    (rows : List (List RawValue)) (hrows : ∀ r ∈ rows, r.length = columns.length) :
    ∃ sheet dataRows, buildSheet zero columntitles columns rows = some sheet ∧
      sheet.columns = columns.map (fun c => Column.mk c 10) ∧
      dataRows.map (fun r => r.Cells.map some) = rows.map (fun r => r.map CellFromPostgres) ∧
      sheet.rows =
        (if columntitles then [Row.mk (columns.map fun c => Cell.mk CellType.CellTypeString c)]
         else []) ++ dataRows ∧
      sheet.rows.length = (if columntitles then 1 else 0) + rows.length ∧
      sheet.rows.get? 0 =
        (if columntitles then some (Row.mk (columns.map fun c => Cell.mk CellType.CellTypeString c))
         else dataRows.head?) := by
  have hcols : rangeAssign (fun _ c => some (Column.mk c 10)) columns 0
      (List.replicate columns.length (Column.mk [] 0)) =
      some (columns.map fun c => Column.mk c 10) :=
    rangeAssign_all _ _ _ _ (by simp) (imageFrom_map _ 0 columns)
  have htitle : rangeAssign (fun _ c => some (Cell.mk CellType.CellTypeString c)) columns 0
      (List.replicate columns.length zero) =
      some (columns.map fun c => Cell.mk CellType.CellTypeString c) :=
    rangeAssign_all _ _ _ _ (by simp) (imageFrom_map _ 0 columns)
  cases columntitles with
  | false =>
    obtain ⟨st1, h1, h2, h3⟩ := rowLoop_spec zero columns rows
      ⟨List.replicate columns.length RawValue.nil, List.replicate columns.length none,
        NewSheetWithColumns (columns.map fun c => Column.mk c 10)⟩
      (by simp) (by simp) (by simp [NewSheetWithColumns]) hrows
    refine ⟨st1.sheet, rows.map fun r => Row.mk (r.map classify), ?_, ?_, map_classify_some rows,
      ?_, ?_, ?_⟩
    · simp only [buildSheet, hcols, Option.some_bind, Bool.false_eq_true, if_false, h1]
    · rw [h2]; rfl
    · rw [h3]; rfl
    · rw [h3]
      simp [NewSheetWithColumns]
      try omega
    · rw [h3]
      cases rows <;> simp [NewSheetWithColumns]
  | true =>
    obtain ⟨st1, h1, h2, h3⟩ := rowLoop_spec zero columns rows
      ⟨List.replicate columns.length RawValue.nil, List.replicate columns.length none,
        { NewSheetWithColumns (columns.map fun c => Column.mk c 10) with
          rows := [Row.mk (columns.map fun c => Cell.mk CellType.CellTypeString c)] }⟩
      (by simp) (by simp) (by simp [NewSheetWithColumns]) hrows
    refine ⟨st1.sheet, rows.map fun r => Row.mk (r.map classify), ?_, ?_, map_classify_some rows,
      ?_, ?_, ?_⟩
    · have happ : ((NewSheetWithColumns (columns.map fun c => Column.mk c 10)).AppendRow
          { (NewSheetWithColumns (columns.map fun c => Column.mk c 10)).NewRow zero with
            Cells := columns.map fun c => Cell.mk CellType.CellTypeString c }).1 =
          { NewSheetWithColumns (columns.map fun c => Column.mk c 10) with
            rows := [Row.mk (columns.map fun c => Cell.mk CellType.CellTypeString c)] } := by
        simp [Sheet.AppendRow, NewSheetWithColumns]
      simp only [buildSheet, hcols, Option.some_bind, if_true, Sheet.NewRow, NewSheetWithColumns,
        List.length_map, htitle]
      simp only [NewSheetWithColumns, Sheet.NewRow] at happ
      rw [happ]
      simp only [NewSheetWithColumns] at h1
      rw [h1]
      rfl
    · rw [h2]; rfl
    · rw [h3]; rfl
    · rw [h3]
      simp [NewSheetWithColumns]
      try omega
    · rw [h3]
      cases rows <;> simp [NewSheetWithColumns]

theorem buildSheet_title_toggle_witness :
    ∃ sheet dataRows,
      buildSheet ⟨CellType.CellTypeNumber, []⟩ true [ascii "code"] [[RawValue.bytes (ascii "0042")]] =
        some sheet ∧
      sheet.columns = [ascii "code"].map (fun c => Column.mk c 10) ∧
      dataRows.map (fun r => r.Cells.map some) =
        [[RawValue.bytes (ascii "0042")]].map (fun r => r.map CellFromPostgres) ∧
      sheet.rows =
        (if true = true then [Row.mk ([ascii "code"].map fun c => Cell.mk CellType.CellTypeString c)]
         else []) ++ dataRows ∧
      sheet.rows.length = (if true = true then 1 else 0) + [[RawValue.bytes (ascii "0042")]].length ∧
      sheet.rows.get? 0 =
        (if true = true then
          some (Row.mk ([ascii "code"].map fun c => Cell.mk CellType.CellTypeString c))
         else dataRows.head?) :=
  buildSheet_title_toggle ⟨CellType.CellTypeNumber, []⟩ true [ascii "code"]
    [[RawValue.bytes (ascii "0042")]] (by simp)

/-- End-to-end scenarios of the sheet: one column `code` with value `0042` gives
one String cell; one column `price` with value `19.99` gives one Number cell;
an empty result with titles gives the title row only. -/
theorem buildSheet_scenarios :
    (buildSheet ⟨CellType.CellTypeNumber, []⟩ false [ascii "code"]
        [[RawValue.bytes (ascii "0042")]]).map Sheet.rows =
      some [⟨[⟨CellType.CellTypeString, ascii "0042"⟩]⟩] ∧
    (buildSheet ⟨CellType.CellTypeNumber, []⟩ false [ascii "price"]
        [[RawValue.bytes (ascii "19.99")]]).map Sheet.rows =
      some [⟨[⟨CellType.CellTypeNumber, ascii "19.99"⟩]⟩] ∧
    (buildSheet ⟨CellType.CellTypeNumber, []⟩ true [ascii "code"] []).map Sheet.rows =
      some [⟨[⟨CellType.CellTypeString, ascii "code"⟩]⟩] ∧
    (buildSheet ⟨CellType.CellTypeNumber, []⟩ false [ascii "code"] []).map Sheet.rows =
      some [] := by
  decide

/-! ## Theorems: the credential lookup -/

theorem recordMatches_five (g : Flags) (a b c d e : GoString) :
    recordMatches g [a, b, c, d, e] = some (keyMatches g [a, b, c, d, e]) := by
  by_cases h0 : a = g.hostname <;> by_cases h1 : b = g.port <;> by_cases h2 : c = g.dbname <;>
    by_cases h3 : d = g.username <;>
    simp [recordMatches, andThen, index, keyMatches, h0, h1, h2, h3]

theorem five_fields (r : List GoString) (h : r.length = 5) :
    ∃ a b c d e, r = [a, b, c, d, e] := by
  match r, h with
  | [a, b, c, d, e], _ => exact ⟨a, b, c, d, e, rfl⟩

theorem searchRecords_spec (g : Flags) (rs : List (List GoString))
    (h5 : ∀ r ∈ rs, r.length = 5) :
    searchRecords g rs =
      match rs.find? (keyMatches g) with
      | some r => some (r.getD 4 [], none)
      | none => some ([], some (ascii "Password for connection not found in " ++ g.filename)) := by
  induction rs with
  | nil => rfl
  | cons r rest ih =>
    obtain ⟨a, b, c, d, e, rfl⟩ := five_fields r (h5 r (List.mem_cons_self _ _))
    have ih1 := ih fun x hx => h5 x (List.mem_cons_of_mem _ hx)
    simp only [searchRecords, recordMatches_five, Option.some_bind, List.find?_cons]
    cases hm : keyMatches g [a, b, c, d, e] with
    | true => simp [index]
    | false => simpa using ih1

/-- C10: over the parsed five-field records, `passwordFromPgpass` returns the
fifth field of the first record, in file order, whose first four fields equal
host, port, database name and user name, with no error; it returns an error
(and an empty password) exactly when no record matches on all four fields. -/
theorem passwordFromPgpass_first_match (g : Flags) (rs : List (List GoString))
    (h5 : ∀ r ∈ rs, r.length = 5) :
    (passwordFromPgpass g (Pgpass.records rs) =
      match rs.find? (fun r => r.take 4 == [g.hostname, g.port, g.dbname, g.username]) with
      | some r => some (r.getD 4 [], none)
      | none => some ([], some (ascii "Password for connection not found in " ++ g.filename))) ∧
    ((∃ p msg, passwordFromPgpass g (Pgpass.records rs) = some (p, some msg)) ↔
      ∀ r ∈ rs, r.take 4 ≠ [g.hostname, g.port, g.dbname, g.username]) := by
  have hs := searchRecords_spec g rs h5
  have hk : (fun r : List GoString => r.take 4 == [g.hostname, g.port, g.dbname, g.username]) =
      keyMatches g := rfl
  refine ⟨by rw [hk]; exact hs, ?_⟩
  simp only [passwordFromPgpass, hs]
  cases hf : rs.find? (keyMatches g) with
  | none =>
    constructor
    · intro _ r hr
      have := List.find?_eq_none.mp hf r hr
      simpa [keyMatches] using this
    · intro _
      exact ⟨_, _, rfl⟩
  | some r =>
    have hmem := List.mem_of_find?_eq_some hf
    have hkey := List.find?_some hf
    simp only [Option.some.injEq, Prod.mk.injEq, false_iff, not_forall]
    constructor
    · rintro ⟨p, msg, _, h⟩
      exact absurd h (by simp)
    · intro h
      exact absurd (by simpa [keyMatches] using hkey) (h r hmem)

theorem passwordFromPgpass_first_match_witness :
    passwordFromPgpass ⟨ascii "localhost", ascii "5432", ascii "mydb", ascii "alice", []⟩
        (Pgpass.records [[ascii "localhost", ascii "5432", ascii "mydb", ascii "alice",
          ascii "secret"]]) = some (ascii "secret", none) ∧
    passwordFromPgpass ⟨ascii "localhost", ascii "5432", ascii "mydb", ascii "bob", []⟩
        (Pgpass.records [[ascii "localhost", ascii "5432", ascii "mydb", ascii "alice",
          ascii "secret"]]) =
      some ([], some (ascii "Password for connection not found in ")) :=
  ⟨(passwordFromPgpass_first_match
      ⟨ascii "localhost", ascii "5432", ascii "mydb", ascii "alice", []⟩
      [[ascii "localhost", ascii "5432", ascii "mydb", ascii "alice", ascii "secret"]]
      (by simp)).1.trans (by decide),
   (passwordFromPgpass_first_match
      ⟨ascii "localhost", ascii "5432", ascii "mydb", ascii "bob", []⟩
      [[ascii "localhost", ascii "5432", ascii "mydb", ascii "alice", ascii "secret"]]
      (by simp)).1.trans (by decide)⟩

end Pg2xlsx
